import Mathlib

/-!
Verification of the Stock-Database portfolio application's live-price
distribution and position-ledger behaviour.  The frontend sources
(`websocket.ts`, `Transactions.tsx`, `EditTransactionModal`, `StockSearch`)
are embedded directly; the backend Ledger Engine endpoint is not among the
sources and is modelled from the specification where noted.
-/

namespace StockDB

/-- Character-wise uppercase normalization, the embedding of JavaScript's
`toUpperCase()` as applied to ticker symbols. -/
def upper (s : String) : String := ⟨s.data.map Char.toUpper⟩

/-- Side of a trade, mirroring `transaction_type: 'buy' | 'sell'` of the
frontend `Transaction` interface. -/
inductive Side where
  | buy
  | sell
deriving DecidableEq, Repr

/-- A transaction record, mirroring the `Transaction` interface of the api
service (`id`, `portfolio_id`, `ticker_symbol`, `transaction_type`,
`quantity`, `price`, `executed_at`).  Decimal quantities and prices are
modelled as rationals, timestamps as naturals. -/
structure Transaction where
  id : Nat
  portfolio_id : Nat
  ticker_symbol : String
  side : Side
  quantity : Rat
  price : Rat
  executed_at : Nat
deriving DecidableEq, Repr

/-- Whether a transaction belongs to the queried (portfolio, symbol) pair;
symbol comparison is case-insensitive via uppercase normalization, the same
normalization the price/subscription paths use. -/
def txMatches (acct : Nat) (sym : String) (t : Transaction) : Bool :=
  t.portfolio_id == acct && upper t.ticker_symbol == upper sym

/-- Signed quantity of a transaction: `+quantity` for a buy, `-quantity`
for a sell. -/
def signedQty (t : Transaction) : Rat :=
  match t.side with
  | Side.buy => t.quantity
  | Side.sell => -t.quantity

/-- Ordering of transactions by execution time; equal timestamps compare
equal, so a stable sort keeps their given (insertion) order. -/
def byTime (a b : Transaction) : Prop := a.executed_at ≤ b.executed_at

instance : DecidableRel byTime :=
  fun a b => inferInstanceAs (Decidable (a.executed_at ≤ b.executed_at))

/-- Modelled from the spec: the backend Ledger Engine `position` function is
not among the sources (only its frontend callers are).  Per §4.6 it folds
the transaction set ordered by `executed_at` (ties broken by insertion
order, hence a stable insertion sort), accumulating `+quantity` for buys and
`-quantity` for sells, restricted to the queried (account, symbol) pair with
case-insensitive symbol comparison. -/
def position (acct : Nat) (sym : String) (txs : List Transaction) : Rat :=
  ((txs.insertionSort byTime).filter (txMatches acct sym)).foldl
    (fun acc t => acc + signedQty t) 0

/-- Sum of buy quantities recorded for the (account, symbol) pair. -/
def buyQtySum (acct : Nat) (sym : String) (txs : List Transaction) : Rat :=
  ((txs.filter (fun t => txMatches acct sym t && t.side == Side.buy)).map
    (fun t => t.quantity)).sum

/-- Sum of sell quantities recorded for the (account, symbol) pair. -/
def sellQtySum (acct : Nat) (sym : String) (txs : List Transaction) : Rat :=
  ((txs.filter (fun t => txMatches acct sym t && t.side == Side.sell)).map
    (fun t => t.quantity)).sum

theorem foldl_add_signed (l : List Transaction) (a : Rat) :
    l.foldl (fun acc t => acc + signedQty t) a = a + (l.map signedQty).sum := by
  induction l generalizing a with
  | nil => simp
  | cons t ts ih => simp [ih]; ring

/-- The ordering pass inside `position` does not affect the accumulated
value: the position is the sum of signed quantities over the matching
transactions. -/
theorem position_eq_sum (acct : Nat) (sym : String) (txs : List Transaction) :
    position acct sym txs
      = ((txs.filter (txMatches acct sym)).map signedQty).sum := by
  unfold position
  rw [foldl_add_signed]
  have h := ((List.perm_insertionSort byTime txs).filter
    (txMatches acct sym)).map signedQty
  rw [h.sum_eq]
  simp

theorem signed_sum_split (acct : Nat) (sym : String) (l : List Transaction) :
    ((l.filter (txMatches acct sym)).map signedQty).sum
      = buyQtySum acct sym l - sellQtySum acct sym l := by
  induction l with
  | nil => simp [buyQtySum, sellQtySum]
  | cons t ts ih =>
    by_cases hm : txMatches acct sym t
    · cases hs : t.side
      · simp [buyQtySum, sellQtySum, List.filter_cons, hm, hs, signedQty] at *
        rw [ih]; ring
      · simp [buyQtySum, sellQtySum, List.filter_cons, hm, hs, signedQty] at *
        rw [ih]; ring
    · simp [buyQtySum, sellQtySum, List.filter_cons, hm] at *
      exact ih

theorem position_perm_invariant (acct : Nat) (sym : String)
    {l1 l2 : List Transaction} (h : l1.Perm l2) :
    position acct sym l1 = position acct sym l2 := by
  rw [position_eq_sum, position_eq_sum]
  exact ((h.filter (txMatches acct sym)).map signedQty).sum_eq

/-- Result of sell validation: either the sell may proceed, or it is
rejected carrying the available position (the frontend surfaces it in the
"Insufficient holdings. You can only sell N shares" message). -/
inductive SellValidation where
  | ok
  | insufficientHoldings (available : Rat)
deriving DecidableEq, Repr

/-- Sell validation as performed by `handleCreate` in `Transactions.tsx`
(lines 182-195): a sell with `quantity > currentPosition` is rejected with
an error carrying the available position; otherwise it is accepted
(equality allowed).  The position checked against is the Ledger Engine's
`position` over the current transaction set. -/
def validate_sell (acct : Nat) (sym : String) (q : Rat)
    (txs : List Transaction) : SellValidation :=
  if q > position acct sym txs then
    SellValidation.insufficientHoldings (position acct sym txs)
  else SellValidation.ok

/-- The commit path of `handleCreate` for a sell: the transaction is
created (appended to the set) only when validation passes; on
`InsufficientHoldings` the handler shows the error and returns before the
create call, leaving the transaction set unchanged. -/
def handleCreateSell (acct : Nat) (sym : String) (q p : Rat) (now : Nat)
    (txs : List Transaction) : List Transaction :=
  match validate_sell acct sym q txs with
  | SellValidation.ok => txs ++ [⟨0, acct, sym, Side.sell, q, p, now⟩]
  | SellValidation.insufficientHoldings _ => txs

/-- C1: `validate_sell` returns `Ok` iff the requested quantity is at most
the position over the same transaction set (equality allowed); otherwise it
returns `InsufficientHoldings` carrying that position, and the sell is not
committed. -/
theorem validate_sell_ok_iff (acct : Nat) (sym : String) (q p : Rat)
    (now : Nat) (txs : List Transaction) :
    (validate_sell acct sym q txs = SellValidation.ok
        ↔ q ≤ position acct sym txs)
      ∧ (¬ q ≤ position acct sym txs →
          validate_sell acct sym q txs
              = SellValidation.insufficientHoldings (position acct sym txs)
            ∧ handleCreateSell acct sym q p now txs = txs) := by
  constructor
  · unfold validate_sell
    by_cases h : q > position acct sym txs
    · rw [if_pos h]
      exact iff_of_false (fun hc => SellValidation.noConfusion hc)
        (not_le.mpr h)
    · rw [if_neg h]
      exact iff_of_true rfl (not_lt.mp h)
  · intro h
    have hgt : q > position acct sym txs := not_le.mp h
    constructor
    · unfold validate_sell
      rw [if_pos hgt]
    · unfold handleCreateSell validate_sell
      rw [if_pos hgt]

/-- The spec's worked scenario: buy 10, buy 5, sell 3. -/
def demoTxs : List Transaction :=
  [⟨1, 1, "SYM", Side.buy, 10, 5, 1⟩,
   ⟨2, 1, "SYM", Side.buy, 5, 6, 2⟩,
   ⟨3, 1, "SYM", Side.sell, 3, 7, 3⟩]

/-- C1 witness: on the spec's scenario (position 12), selling 13 is
rejected carrying 12 and does not commit. -/
theorem validate_sell_ok_iff_witness :
    ¬ (13 : Rat) ≤ position 1 "SYM" demoTxs
      ∧ validate_sell 1 "SYM" 13 demoTxs
          = SellValidation.insufficientHoldings (position 1 "SYM" demoTxs)
      ∧ handleCreateSell 1 "SYM" 13 7 99 demoTxs = demoTxs := by
  have hn : ¬ (13 : Rat) ≤ position 1 "SYM" demoTxs := by
    norm_num [position, demoTxs, List.insertionSort, List.orderedInsert,
      byTime, txMatches, signedQty, upper]
  exact ⟨hn, (validate_sell_ok_iff 1 "SYM" 13 7 99 demoTxs).2 hn⟩

/-- C2: the position equals (sum of buy quantities) minus (sum of sell
quantities) for the (account, symbol) pair, and any two orderings of the
same transactions - in particular orderings differing only in the tie-break
among equal timestamps - yield the same position. -/
theorem position_net_and_order_independent (acct : Nat) (sym : String)
    (txs l1 l2 : List Transaction) (hperm : l1.Perm l2) :
    position acct sym txs = buyQtySum acct sym txs - sellQtySum acct sym txs
      ∧ position acct sym l1 = position acct sym l2 := by
  constructor
  · rw [position_eq_sum, signed_sum_split]
  · exact position_perm_invariant acct sym hperm

/-- C2 witness: two tie-broken orderings of the spec's scenario (the two
buys share a timestamp in either order) give the same position. -/
theorem position_net_and_order_independent_witness :
    ([⟨1, 1, "SYM", Side.buy, 10, 5, 1⟩, ⟨2, 1, "SYM", Side.buy, 5, 6, 1⟩,
        ⟨3, 1, "SYM", Side.sell, 3, 7, 3⟩] : List Transaction).Perm
      [⟨2, 1, "SYM", Side.buy, 5, 6, 1⟩, ⟨1, 1, "SYM", Side.buy, 10, 5, 1⟩,
        ⟨3, 1, "SYM", Side.sell, 3, 7, 3⟩]
    ∧ position 1 "SYM" demoTxs
        = buyQtySum 1 "SYM" demoTxs - sellQtySum 1 "SYM" demoTxs
    ∧ position 1 "SYM"
        [⟨1, 1, "SYM", Side.buy, 10, 5, 1⟩, ⟨2, 1, "SYM", Side.buy, 5, 6, 1⟩,
          ⟨3, 1, "SYM", Side.sell, 3, 7, 3⟩]
      = position 1 "SYM"
        [⟨2, 1, "SYM", Side.buy, 5, 6, 1⟩, ⟨1, 1, "SYM", Side.buy, 10, 5, 1⟩,
          ⟨3, 1, "SYM", Side.sell, 3, 7, 3⟩] := by
  have hperm :
      ([⟨1, 1, "SYM", Side.buy, 10, 5, 1⟩, ⟨2, 1, "SYM", Side.buy, 5, 6, 1⟩,
          ⟨3, 1, "SYM", Side.sell, 3, 7, 3⟩] : List Transaction).Perm
        [⟨2, 1, "SYM", Side.buy, 5, 6, 1⟩, ⟨1, 1, "SYM", Side.buy, 10, 5, 1⟩,
          ⟨3, 1, "SYM", Side.sell, 3, 7, 3⟩] :=
    List.Perm.swap _ _ _
  have h := position_net_and_order_independent 1 "SYM" demoTxs _ _ hperm
  exact ⟨hperm, h.1, h.2⟩

/-! ### The `StockPriceWebSocket` client (`websocket.ts`)

JavaScript `Map<string, Set<Callback>>` is embedded as an association list
with duplicate-free value lists, `Set` as a duplicate-free list; callbacks
are identified by opaque ids (`Nat`). -/

/-- A message the client sends over the socket (`ws.send` payloads of
`subscribe`/`unsubscribe`). -/
inductive ClientMsg where
  | subMsg (ticker : String)
  | unsubMsg (ticker : String)
deriving DecidableEq, Repr

/-- Client-side state of `StockPriceWebSocket`: the per-ticker price
callback registry, the error-callback set, the subscribed-ticker set, the
socket/open flag and reconnect counter, and the log of messages sent. -/
structure WSClient where
  priceCallbacks : List (String × List Nat)
  errorCallbacks : List Nat
  subscribedTickers : List String
  wsOpen : Bool
  reconnectAttempts : Nat
  sent : List ClientMsg
deriving DecidableEq, Repr

/-- `Map.has`. -/
def mapHas (m : List (String × List Nat)) (k : String) : Bool :=
  m.any (fun p => p.1 == k)

/-- `Map.get`, the empty list standing for an absent entry. -/
def mapGet (m : List (String × List Nat)) (k : String) : List Nat :=
  match m.find? (fun p => p.1 == k) with
  | some p => p.2
  | none => []

/-- `Map.set`: one entry per key. -/
def mapSet (m : List (String × List Nat)) (k : String) (v : List Nat) :
    List (String × List Nat) :=
  m.filter (fun p => p.1 != k) ++ [(k, v)]

/-- `Map.delete`. -/
def mapDel (m : List (String × List Nat)) (k : String) :
    List (String × List Nat) :=
  m.filter (fun p => p.1 != k)

/-- `Set.add` on callback ids. -/
def setAdd (s : List Nat) (x : Nat) : List Nat :=
  if s.contains x then s else s ++ [x]

/-- `Set.delete` on callback ids. -/
def setDel (s : List Nat) (x : Nat) : List Nat :=
  s.filter (fun y => y != x)

/-- `Set.delete` on tickers. -/
def tickerDel (s : List String) (x : String) : List String :=
  s.filter (fun y => y != x)

/-- `StockPriceWebSocket.subscribe` (websocket.ts lines 91-111): uppercase
the ticker; when a callback is supplied, register it under the uppercased
key (creating the entry if needed); if the ticker is not yet subscribed,
record it and, when the socket is open, send a subscribe message. -/
def subscribe (st : WSClient) (ticker : String) (callback : Option Nat) :
    WSClient :=
  let upperTicker := upper ticker
  let st1 :=
    match callback with
    | some cb =>
        let m :=
          if mapHas st.priceCallbacks upperTicker then st.priceCallbacks
          else mapSet st.priceCallbacks upperTicker []
        { st with
            priceCallbacks :=
              mapSet m upperTicker (setAdd (mapGet m upperTicker) cb) }
    | none => st
  if st1.subscribedTickers.contains upperTicker then st1
  else
    let st2 :=
      { st1 with subscribedTickers := st1.subscribedTickers ++ [upperTicker] }
    if st2.wsOpen then
      { st2 with sent := st2.sent ++ [ClientMsg.subMsg upperTicker] }
    else st2

/-- First block of `unsubscribe` (lines 116-124): remove the supplied
callback from the symbol's callback set, deleting the map entry when the
set becomes empty. -/
def unsubCallbacks (pc : List (String × List Nat)) (upperTicker : String)
    (callback : Option Nat) : List (String × List Nat) :=
  match callback with
  | some cb =>
      if mapHas pc upperTicker then
        if (setDel (mapGet pc upperTicker) cb).isEmpty then
          mapDel pc upperTicker
        else mapSet pc upperTicker (setDel (mapGet pc upperTicker) cb)
      else pc
  | none => pc

/-- `StockPriceWebSocket.unsubscribe` (lines 113-137): after callback
removal, the ticker is dropped from the subscribed set (and an unsubscribe
message sent on an open socket) only when no callbacks remain for it. -/
def unsubscribe (st : WSClient) (ticker : String) (callback : Option Nat) :
    WSClient :=
  let upperTicker := upper ticker
  let st1 :=
    { st with
        priceCallbacks := unsubCallbacks st.priceCallbacks upperTicker callback }
  if !mapHas st1.priceCallbacks upperTicker
      || (mapGet st1.priceCallbacks upperTicker).isEmpty then
    let st2 :=
      { st1 with
          subscribedTickers := tickerDel st1.subscribedTickers upperTicker }
    if st2.wsOpen then
      { st2 with sent := st2.sent ++ [ClientMsg.unsubMsg upperTicker] }
    else st2
  else st1

/-- Run a list of callbacks the way the source's `forEach` with a
per-iteration `try`/`catch` does (`throws cb = true` models the callback
raising): with the catch in place (`caught = true`) every callback is
reached whether or not earlier ones threw; without it the first throwing
callback would abort the iteration.  Returns the ids invoked, in order. -/
def runCallbacks (throws : Nat → Bool) (caught : Bool) :
    List Nat → List Nat
  | [] => []
  | cb :: rest =>
      if throws cb then
        if caught then cb :: runCallbacks throws caught rest else [cb]
      else cb :: runCallbacks throws caught rest

/-- `notifyPriceUpdate` (lines 147-159): look up the callbacks registered
under the uppercased ticker and invoke each with `(upperTicker, price)`,
each invocation wrapped in `try`/`catch`.  Returns the invocations
performed, as (callback id, ticker argument, price argument). -/
def notifyPriceUpdate (throws : Nat → Bool) (st : WSClient)
    (ticker : String) (price : Rat) : List (Nat × String × Rat) :=
  (runCallbacks throws true (mapGet st.priceCallbacks (upper ticker))).map
    (fun cb => (cb, upper ticker, price))

/-- `notifyError` (lines 161-169): invoke every registered error callback
with the message string, each wrapped in `try`/`catch`. -/
def notifyError (throws : Nat → Bool) (st : WSClient) (message : String) :
    List (Nat × String) :=
  (runCallbacks throws true st.errorCallbacks).map (fun cb => (cb, message))

/-- A parsed inbound server message (`onmessage`, lines 48-63): price
updates carry ticker and price; error messages carry only `message`
(`data.message`); `pong` is ignored. -/
inductive ServerMsg where
  | priceUpdate (ticker : String) (price : Rat)
  | errorMsg (message : String)
  | pong
deriving DecidableEq, Repr

/-- One callback invocation performed by the client's message handler. -/
inductive Invocation where
  | priceInv (cb : Nat) (ticker : String) (price : Rat)
  | errorInv (cb : Nat) (message : String)
deriving DecidableEq, Repr

/-- The `onmessage` handler (lines 48-63): a `price_update` is dispatched
per-symbol via `notifyPriceUpdate`; an `error` goes to the flat
error-callback set via `notifyError`; `pong` does nothing. -/
def onmessage (throws : Nat → Bool) (st : WSClient) (msg : ServerMsg) :
    List Invocation :=
  match msg with
  | ServerMsg.priceUpdate t p =>
      (notifyPriceUpdate throws st t p).map
        (fun i => Invocation.priceInv i.1 i.2.1 i.2.2)
  | ServerMsg.errorMsg m =>
      (notifyError throws st m).map (fun i => Invocation.errorInv i.1 i.2)
  | ServerMsg.pong => []

/-- Invocations performed for a batch of inbound messages, in order. -/
def processMessages (throws : Nat → Bool) (st : WSClient) :
    List ServerMsg → List Invocation
  | [] => []
  | m :: ms => onmessage throws st m ++ processMessages throws st ms

/-- The `onopen` handler (lines 37-46): mark the socket open, reset the
reconnect counter, and call `subscribe(ticker)` (no callback argument) for
every previously subscribed ticker. -/
def onopen (st : WSClient) : WSClient :=
  let st1 := { st with wsOpen := true, reconnectAttempts := 0 }
  st1.subscribedTickers.foldl (fun s t => subscribe s t none) st1

/-! ### Map/Set helper lemmas -/

theorem runCallbacks_caught (throws : Nat → Bool) (l : List Nat) :
    runCallbacks throws true l = l := by
  induction l with
  | nil => rfl
  | cons cb rest ih => by_cases h : throws cb <;> simp [runCallbacks, h, ih]

theorem find?_filter_ne (m : List (String × List Nat)) (k : String) :
    (m.filter (fun p => p.1 != k)).find? (fun p => p.1 == k) = none := by
  induction m with
  | nil => rfl
  | cons p ps ih =>
    by_cases h : p.1 = k
    · simpa [List.filter_cons, h] using ih
    · simpa [List.filter_cons, h, List.find?_cons] using ih

theorem mapGet_mapSet_self (m : List (String × List Nat)) (k : String)
    (v : List Nat) : mapGet (mapSet m k v) k = v := by
  unfold mapGet mapSet
  rw [List.find?_append, find?_filter_ne]
  simp [List.find?_cons]

theorem mapGet_mapSet_ne (m : List (String × List Nat)) {k k' : String}
    (h : k' ≠ k) (v : List Nat) : mapGet (mapSet m k v) k' = mapGet m k' := by
  unfold mapGet mapSet
  rw [List.find?_append]
  have hfind : (m.filter (fun p => p.1 != k)).find? (fun p => p.1 == k')
      = m.find? (fun p => p.1 == k') := by
    induction m with
    | nil => rfl
    | cons p ps ih =>
      by_cases hp : p.1 = k'
      · have hpk : p.1 ≠ k := by rw [hp]; exact h
        simp [List.filter_cons, hpk, List.find?_cons, hp, h]
      · by_cases hk : p.1 = k
        · simpa [List.filter_cons, hk, List.find?_cons, hp, Ne.symm h] using ih
        · simpa [List.filter_cons, hk, List.find?_cons, hp] using ih
  rw [hfind]
  cases hm : m.find? (fun p => p.1 == k') with
  | some p => simp
  | none => simp [List.find?_cons, Ne.symm h]

theorem mapHas_mapSet_self (m : List (String × List Nat)) (k : String)
    (v : List Nat) : mapHas (mapSet m k v) k = true := by
  simp [mapHas, mapSet]

theorem mapHas_mapDel_self (m : List (String × List Nat)) (k : String) :
    mapHas (mapDel m k) k = false := by
  simp only [mapHas, mapDel, List.any_eq_false]
  intro p hp
  have := List.of_mem_filter hp
  simpa [bne_iff_ne] using this

theorem mapDel_mapDel (m : List (String × List Nat)) (k : String) :
    mapDel (mapDel m k) k = mapDel m k := by
  unfold mapDel
  induction m with
  | nil => rfl
  | cons p ps ih =>
    by_cases h : p.1 = k
    · simpa [List.filter_cons, h] using ih
    · simpa [List.filter_cons, h] using ih

theorem mapDel_mapSet (m : List (String × List Nat)) (k : String)
    (v : List Nat) : mapDel (mapSet m k v) k = mapDel m k := by
  unfold mapDel mapSet
  rw [List.filter_append]
  have h1 := mapDel_mapDel m k
  unfold mapDel at h1
  rw [h1]
  simp

theorem mapSet_mapSet (m : List (String × List Nat)) (k : String)
    (v w : List Nat) : mapSet (mapSet m k v) k w = mapSet m k w := by
  unfold mapSet
  rw [List.filter_append]
  have h1 := mapDel_mapDel m k
  unfold mapDel at h1
  rw [h1]
  simp

theorem setDel_setDel (s : List Nat) (x : Nat) :
    setDel (setDel s x) x = setDel s x := by
  unfold setDel
  induction s with
  | nil => rfl
  | cons y ys ih =>
    by_cases h : y = x
    · simpa [List.filter_cons, h] using ih
    · simpa [List.filter_cons, h] using ih

theorem tickerDel_tickerDel (s : List String) (x : String) :
    tickerDel (tickerDel s x) x = tickerDel s x := by
  unfold tickerDel
  induction s with
  | nil => rfl
  | cons y ys ih =>
    by_cases h : y = x
    · simpa [List.filter_cons, h] using ih
    · simpa [List.filter_cons, h] using ih

theorem tickerDel_not_contains (s : List String) (x : String) :
    (tickerDel s x).contains x = false := by
  unfold tickerDel
  induction s with
  | nil => rfl
  | cons y ys ih =>
    by_cases h : y = x
    · simpa [List.filter_cons, h] using ih
    · have hg : (y != x) = true := by simp [h]
      rw [List.filter_cons, if_pos hg, List.contains_cons, ih]
      simp
      exact fun hh => h hh.symm

theorem mem_setAdd_self (s : List Nat) (x : Nat) : x ∈ setAdd s x := by
  unfold setAdd
  by_cases h : s.contains x
  · rw [if_pos h]
    simpa using h
  · rw [if_neg h]
    simp

theorem not_mem_mapGet_of_fresh {m : List (String × List Nat)} {x : Nat}
    (h : ∀ p ∈ m, x ∉ p.2) (k : String) : x ∉ mapGet m k := by
  unfold mapGet
  cases hf : m.find? (fun p => p.1 == k) with
  | none => simp
  | some p => exact h p (List.mem_of_find?_eq_some hf)

theorem mapGet_eq_nil_of_not_has {m : List (String × List Nat)} {k : String}
    (h : mapHas m k = false) : mapGet m k = [] := by
  unfold mapGet
  cases hf : m.find? (fun p => p.1 == k) with
  | none => rfl
  | some p =>
    exfalso
    have hmem := List.mem_of_find?_eq_some hf
    have hp := List.find?_some hf
    have : mapHas m k = true := List.any_eq_true.mpr ⟨p, hmem, hp⟩
    rw [h] at this
    exact Bool.noConfusion this

/-- The first stage of `subscribe` is the only one that touches the
callback registry; the value it stores under the uppercased key. -/
theorem subscribe_priceCallbacks_some (st : WSClient) (t : String) (cb : Nat) :
    (subscribe st t (some cb)).priceCallbacks
      = mapSet
          (if mapHas st.priceCallbacks (upper t) then st.priceCallbacks
           else mapSet st.priceCallbacks (upper t) [])
          (upper t)
          (setAdd
            (mapGet
              (if mapHas st.priceCallbacks (upper t) then st.priceCallbacks
               else mapSet st.priceCallbacks (upper t) []) (upper t)) cb) := by
  unfold subscribe
  dsimp only
  split
  · rfl
  · split <;> rfl

theorem subscribe_mapGet_self (st : WSClient) (t : String) (cb : Nat) :
    mapGet (subscribe st t (some cb)).priceCallbacks (upper t)
      = setAdd (mapGet st.priceCallbacks (upper t)) cb := by
  rw [subscribe_priceCallbacks_some, mapGet_mapSet_self]
  by_cases h : mapHas st.priceCallbacks (upper t)
  · rw [if_pos h]
  · rw [if_neg h, mapGet_mapSet_self,
      mapGet_eq_nil_of_not_has (Bool.of_not_eq_true h)]

theorem subscribe_mapGet_ne (st : WSClient) (t : String) (cb : Nat)
    {u2 : String} (h : u2 ≠ upper t) :
    mapGet (subscribe st t (some cb)).priceCallbacks u2
      = mapGet st.priceCallbacks u2 := by
  rw [subscribe_priceCallbacks_some, mapGet_mapSet_ne _ h]
  by_cases hh : mapHas st.priceCallbacks (upper t)
  · rw [if_pos hh]
  · rw [if_neg hh, mapGet_mapSet_ne _ h]

/-- C3: subscribe and price-update dispatch key symbols under one identical
uppercase normalization: a fresh callback subscribed under spelling `s1` is
invoked for a price update delivered under spelling `s2` exactly when the
two spellings uppercase to the same symbol; and a position computed under
one casing is found under any casing of the same instrument. -/
theorem case_insensitive_symbol_keying (throws : Nat → Bool) (st : WSClient)
    (s1 s2 : String) (cb : Nat) (p : Rat)
    (hfresh : ∀ kv ∈ st.priceCallbacks, cb ∉ kv.2) :
    (((cb, upper s2, p)
          ∈ notifyPriceUpdate throws (subscribe st s1 (some cb)) s2 p)
        ↔ upper s1 = upper s2)
      ∧ ∀ (acct : Nat) (txs : List Transaction), upper s1 = upper s2 →
          position acct s1 txs = position acct s2 txs := by
  constructor
  · unfold notifyPriceUpdate
    rw [runCallbacks_caught]
    constructor
    · intro hmem
      simp only [List.mem_map] at hmem
      obtain ⟨c, hc, he⟩ := hmem
      have hcb : c = cb := by simpa using congrArg Prod.fst he
      subst hcb
      by_contra hne
      have hne2 : upper s2 ≠ upper s1 := fun hh => hne hh.symm
      rw [subscribe_mapGet_ne st s1 c hne2] at hc
      exact not_mem_mapGet_of_fresh hfresh (upper s2) hc
    · intro heq
      refine List.mem_map.mpr ⟨cb, ?_, rfl⟩
      rw [← heq, subscribe_mapGet_self]
      exact mem_setAdd_self _ _
  · intro acct txs heq
    have hf : txMatches acct s1 = txMatches acct s2 := by
      funext tx
      simp [txMatches, heq]
    simp [position, hf]

/-- C3 witness: a callback subscribed under "aapl" receives an update
delivered under "AAPL", and the position of "aapl" equals that of "AAPL". -/
theorem case_insensitive_symbol_keying_witness :
    ((1, upper "AAPL", (5 : Rat))
        ∈ notifyPriceUpdate (fun x => false)
            (subscribe ⟨[], [], [], false, 0, []⟩ "aapl" (some 1)) "AAPL" 5)
      ∧ position 2 "aapl" demoTxs = position 2 "AAPL" demoTxs := by
  have h := case_insensitive_symbol_keying (fun x => false)
    ⟨[], [], [], false, 0, []⟩ "aapl" "AAPL" 1 5 (by simp)
  exact ⟨h.1.mpr (by decide), h.2 2 demoTxs (by decide)⟩

theorem unsubCallbacks_idem (pc : List (String × List Nat)) (u : String)
    (c : Option Nat) :
    unsubCallbacks (unsubCallbacks pc u c) u c = unsubCallbacks pc u c := by
  cases c with
  | none => rfl
  | some cb =>
    by_cases h : mapHas pc u = true
    · by_cases he : (setDel (mapGet pc u) cb).isEmpty = true
      · have hx : unsubCallbacks pc u (some cb) = mapDel pc u := by
          simp only [unsubCallbacks]
          rw [if_pos h, if_pos he]
        rw [hx]
        simp only [unsubCallbacks]
        rw [if_neg (by simp [mapHas_mapDel_self])]
      · have hx : unsubCallbacks pc u (some cb)
            = mapSet pc u (setDel (mapGet pc u) cb) := by
          simp only [unsubCallbacks]
          rw [if_pos h, if_neg he]
        rw [hx]
        simp only [unsubCallbacks]
        rw [if_pos (mapHas_mapSet_self pc u _), mapGet_mapSet_self,
          setDel_setDel, if_neg he, mapSet_mapSet]
    · have hx : unsubCallbacks pc u (some cb) = pc := by
        simp only [unsubCallbacks]
        rw [if_neg h]
      rw [hx]
      exact hx

theorem unsubscribe_priceCallbacks (st : WSClient) (t : String)
    (c : Option Nat) :
    (unsubscribe st t c).priceCallbacks
      = unsubCallbacks st.priceCallbacks (upper t) c := by
  unfold unsubscribe
  dsimp only
  split
  · split <;> rfl
  · rfl

theorem unsubscribe_subscribedTickers (st : WSClient) (t : String)
    (c : Option Nat) :
    (unsubscribe st t c).subscribedTickers
      = if !mapHas (unsubCallbacks st.priceCallbacks (upper t) c) (upper t)
            || (mapGet (unsubCallbacks st.priceCallbacks (upper t) c)
                  (upper t)).isEmpty
        then tickerDel st.subscribedTickers (upper t)
        else st.subscribedTickers := by
  unfold unsubscribe
  dsimp only
  split
  · split <;> rfl
  · rfl

/-- C4: two successive `unsubscribe` calls for the same (connection,
symbol) pair (same optional callback argument) leave the subscription state
- the subscribed-ticker set and the callback registry - identical to the
state after one call. -/
theorem unsubscribe_idempotent (st : WSClient) (t : String) (c : Option Nat) :
    (unsubscribe (unsubscribe st t c) t c).subscribedTickers
        = (unsubscribe st t c).subscribedTickers
      ∧ (unsubscribe (unsubscribe st t c) t c).priceCallbacks
        = (unsubscribe st t c).priceCallbacks := by
  have h1 := unsubscribe_subscribedTickers st t c
  have h2 := unsubscribe_subscribedTickers (unsubscribe st t c) t c
  have hp1 := unsubscribe_priceCallbacks st t c
  have hp2 := unsubscribe_priceCallbacks (unsubscribe st t c) t c
  rw [hp1, unsubCallbacks_idem] at h2 hp2
  constructor
  · rw [h2, h1]
    by_cases hcond : (!mapHas (unsubCallbacks st.priceCallbacks (upper t) c)
          (upper t)
        || (mapGet (unsubCallbacks st.priceCallbacks (upper t) c)
              (upper t)).isEmpty) = true
    · simp [hcond, tickerDel_tickerDel]
    · simp [hcond]
  · rw [hp2, hp1]

/-- C5 counterexample: with two callbacks registered for AAPL, a single
`unsubscribe` call (removing one of them) leaves "AAPL" in the
subscribed-ticker set, so the subscription relation entry is not removed. -/
theorem unsubscribe_keeps_ticker_counterexample :
    (unsubscribe ⟨[("AAPL", [1, 2])], [], ["AAPL"], true, 0, []⟩ "AAPL"
        (some 1)).subscribedTickers = ["AAPL"] := by decide

/-- C5 (amended): `unsubscribe` removes the symbol from the subscribed set
exactly when no callbacks remain registered for it after removing the
supplied callback; when callbacks remain, the subscribed set is unchanged
(the source only unsubscribes from the socket once no callbacks remain). -/
theorem unsubscribe_removes_iff_no_callbacks (st : WSClient) (t : String)
    (c : Option Nat) :
    ((!mapHas (unsubCallbacks st.priceCallbacks (upper t) c) (upper t)
        || (mapGet (unsubCallbacks st.priceCallbacks (upper t) c)
              (upper t)).isEmpty) = true →
      (unsubscribe st t c).subscribedTickers.contains (upper t) = false)
    ∧ ((!mapHas (unsubCallbacks st.priceCallbacks (upper t) c) (upper t)
        || (mapGet (unsubCallbacks st.priceCallbacks (upper t) c)
              (upper t)).isEmpty) = false →
      (unsubscribe st t c).subscribedTickers = st.subscribedTickers) := by
  constructor
  · intro h
    rw [unsubscribe_subscribedTickers, if_pos h]
    exact tickerDel_not_contains _ _
  · intro h
    rw [unsubscribe_subscribedTickers, if_neg (by simp [h])]

/-- C5 witness: with a single callback registered for AAPL, removing it
drops AAPL from the subscribed-ticker set. -/
theorem unsubscribe_removes_iff_no_callbacks_witness :
    (!mapHas (unsubCallbacks [("AAPL", [1])] (upper "AAPL") (some 1))
          (upper "AAPL")
        || (mapGet (unsubCallbacks [("AAPL", [1])] (upper "AAPL") (some 1))
              (upper "AAPL")).isEmpty) = true
      ∧ (unsubscribe ⟨[("AAPL", [1])], [], ["AAPL"], true, 0, []⟩ "AAPL"
            (some 1)).subscribedTickers.contains (upper "AAPL") = false := by
  refine ⟨by decide, ?_⟩
  exact (unsubscribe_removes_iff_no_callbacks
    ⟨[("AAPL", [1])], [], ["AAPL"], true, 0, []⟩ "AAPL" (some 1)).1 (by decide)

/-- C6 counterexample: the client's error path is the flat `errorCallbacks`
set, so when a fetch for MSFT fails, callback 1 - registered for price
updates only under AAPL - receives the MSFT error message too; the error
delivery is not restricted to the failing symbol's subscribers, and the
callback receives only the message string, not a symbol field. -/
theorem error_broadcast_counterexample :
    (Invocation.errorInv 1 "Failed to fetch price for MSFT"
        ∈ onmessage (fun x => false)
            ⟨[("AAPL", [1]), ("MSFT", [2])], [1, 2], ["AAPL", "MSFT"],
              true, 0, []⟩
            (ServerMsg.errorMsg "Failed to fetch price for MSFT"))
      ∧ (mapGet [("AAPL", [1]), ("MSFT", [2])] "MSFT").contains 1
          = false := by decide

/-- C6 (amended): an error message is delivered to every registered error
callback regardless of symbol - the error path is global and carries only
the message string - and price updates handled in the same batch are still
delivered in full to the subscribers of their own symbols (an error never
suppresses a price update). -/
theorem error_dispatch_global (throws : Nat → Bool) (st : WSClient)
    (m : String) (cb : Nat) (t : String) (p : Rat) :
    ((cb, m) ∈ notifyError throws st m ↔ cb ∈ st.errorCallbacks)
      ∧ processMessages throws st
            [ServerMsg.errorMsg m, ServerMsg.priceUpdate t p]
          = st.errorCallbacks.map (fun c => Invocation.errorInv c m)
            ++ (mapGet st.priceCallbacks (upper t)).map
                (fun c => Invocation.priceInv c (upper t) p) := by
  constructor
  · unfold notifyError
    rw [runCallbacks_caught]
    simp [List.mem_map]
  · simp only [processMessages, onmessage, notifyError, notifyPriceUpdate,
      runCallbacks_caught, List.map_map, List.append_nil]
    rfl

/-- C9: each callback invocation inside `notifyPriceUpdate` and
`notifyError` is wrapped in its own `try`/`catch`, so whatever set of
callbacks throws, every registered callback is still invoked with the same
`(ticker, price)` pair (respectively the same message): a subscriber
callback's failure never suppresses delivery of the update to its peers. -/
theorem callback_exception_isolation (throws : Nat → Bool) (st : WSClient)
    (t : String) (p : Rat) (m : String) :
    notifyPriceUpdate throws st t p
        = (mapGet st.priceCallbacks (upper t)).map (fun cb => (cb, upper t, p))
      ∧ notifyError throws st m
        = st.errorCallbacks.map (fun cb => (cb, m)) := by
  constructor <;> simp [notifyPriceUpdate, notifyError, runCallbacks_caught]

/-- A client that had two live subscriptions and then lost its socket, as
`onopen` finds it after a reconnect. -/
def reconnectState : WSClient :=
  ⟨[("AAPL", [1]), ("MSFT", [2])], [], ["AAPL", "MSFT"], false, 3, []⟩

/-- C10 failing input: after a reconnect, `onopen` loops over
`subscribedTickers` calling `subscribe(ticker)`, but `subscribe` skips the
`ws.send` whenever the ticker is already in `subscribedTickers` - which it
always is here - so no subscribe message is sent at all and the server-side
subscription set is not restored, although the socket is open and the
subscribed set is nonempty. -/
theorem onopen_sends_no_resubscribe :
    (onopen reconnectState).sent = []
      ∧ reconnectState.subscribedTickers ≠ []
      ∧ (onopen reconnectState).wsOpen = true
      ∧ (onopen reconnectState).reconnectAttempts = 0 := by decide

/-! ### Cached prices (`StockSearch.handleGetPrice`) and the session cache -/

/-- Outcome of a `handleGetPrice` call: the price shown, whether the HTTP
price endpoint was called, and whether a live-update subscription was made. -/
structure GetPriceOutcome where
  price : Option Rat
  apiFetched : Bool
  subscribedLive : Bool
deriving DecidableEq, Repr

/-- Lookup in the component's `livePrices` map. -/
def priceLookup (m : List (String × Rat)) (k : String) : Option Rat :=
  (m.find? (fun p => p.1 == k)).map (fun p => p.2)

/-- The fallback path of `handleGetPrice`: call the HTTP price endpoint and,
on success, subscribe for live updates. -/
def getPriceFallback (apiPrice : Option Rat) : GetPriceOutcome :=
  match apiPrice with
  | some p => ⟨some p, true, true⟩
  | none => ⟨none, true, false⟩

/-- `StockSearch.handleGetPrice` (unnamed part 003, lines 73-103): first
consult the live-price cache under the uppercased ticker; a truthy (nonzero)
cached price is returned immediately with no API call; otherwise fall back
to the HTTP price endpoint. -/
def handleGetPrice (livePrices : List (String × Rat)) (apiPrice : Option Rat)
    (ticker : String) : GetPriceOutcome :=
  match priceLookup livePrices (upper ticker) with
  | some cached =>
      if cached == 0 then getPriceFallback apiPrice
      else ⟨some cached, false, false⟩
  | none => getPriceFallback apiPrice

/-- A server-side price cache entry: {price, observed_at}. -/
structure CacheEntry where
  price : Rat
  observed_at : Nat
deriving DecidableEq, Repr

/-- Lookup in the server-side price cache. -/
def cacheLookup (cache : List (String × CacheEntry)) (k : String) :
    Option CacheEntry :=
  (cache.find? (fun p => p.1 == k)).map (fun p => p.2)

/-- Modelled from the spec: the server-side Connection Session (§4.5) is
not among the sources.  Upon (re)subscribing to a symbol whose cache entry
is fresh (age within the refresh interval, §4.4 and glossary) the session
immediately emits the cached value; the session itself issues no upstream
fetch (fetches happen only in the scheduler tick).  Returns (value emitted
immediately, whether an upstream fetch was issued). -/
def sessionOnSubscribe (cache : List (String × CacheEntry))
    (now refresh : Nat) (sym : String) : Option Rat × Bool :=
  match cacheLookup cache (upper sym) with
  | some e =>
      if now - e.observed_at ≤ refresh then (some e.price, false)
      else (none, false)
  | none => (none, false)

/-- C7: a price request finding a (nonzero) cached price returns it
immediately without calling the price API and without a new subscription;
and re-subscribing to a symbol with a fresh cache entry makes the session
emit the cached value at once, with no upstream fetch. -/
theorem cached_price_immediate :
    (∀ (livePrices : List (String × Rat)) (apiPrice : Option Rat)
        (ticker : String) (c : Rat),
        priceLookup livePrices (upper ticker) = some c → c ≠ 0 →
        handleGetPrice livePrices apiPrice ticker = ⟨some c, false, false⟩)
      ∧ (∀ (cache : List (String × CacheEntry)) (now refresh : Nat)
          (sym : String) (e : CacheEntry),
          cacheLookup cache (upper sym) = some e →
          now - e.observed_at ≤ refresh →
          sessionOnSubscribe cache now refresh sym = (some e.price, false)) := by
  constructor
  · intro lp api t c hc hne
    unfold handleGetPrice
    rw [hc]
    dsimp only
    rw [if_neg (by simpa using hne)]
  · intro cache now r s e he hf
    unfold sessionOnSubscribe
    rw [he]
    dsimp only
    rw [if_pos hf]

/-- C7 witness: a cached 150 for AAPL is returned without an API call, and
a fresh cache entry is emitted immediately on subscribe. -/
theorem cached_price_immediate_witness :
    priceLookup [("AAPL", 150)] (upper "aapl") = some 150
      ∧ (150 : Rat) ≠ 0
      ∧ handleGetPrice [("AAPL", 150)] none "aapl" = ⟨some 150, false, false⟩
      ∧ cacheLookup [("AAPL", ⟨150, 10⟩)] (upper "AAPL") = some ⟨150, 10⟩
      ∧ 12 - 10 ≤ 5
      ∧ sessionOnSubscribe [("AAPL", ⟨150, 10⟩)] 12 5 "AAPL"
          = (some 150, false) := by
  refine ⟨by decide, by decide, ?_, by decide, by decide, ?_⟩
  · exact cached_price_immediate.1 [("AAPL", 150)] none "aapl" 150
      (by decide) (by decide)
  · exact cached_price_immediate.2 [("AAPL", ⟨150, 10⟩)] 12 5 "AAPL"
      ⟨150, 10⟩ (by decide) (by decide)

/-! ### Editing a sell transaction (`EditTransactionModal`) -/

/-- The available-to-sell computation of `EditTransactionModal` (unnamed
part 005, lines 62-94): fetch the position for the selected (portfolio,
ticker) and, when the transaction being edited is a sell, add its quantity
back to the available amount. -/
def editAvailablePosition (txs : List Transaction) (t : Transaction)
    (acct : Nat) (sym : String) : Rat :=
  if t.side == Side.sell then position acct sym txs + t.quantity
  else position acct sym txs

/-- `EditTransactionModal.handleSubmit` (lines 96-112): a sell with
`quantity > currentPosition` is rejected; otherwise the update proceeds. -/
def editSellSubmitProceeds (q available : Rat) : Bool :=
  if q > available then false else true

theorem position_erase_of_matches (acct : Nat) (sym : String)
    {txs : List Transaction} {t : Transaction} (hmem : t ∈ txs)
    (hm : txMatches acct sym t = true) :
    position acct sym txs = signedQty t + position acct sym (txs.erase t) := by
  have hperm : txs.Perm (t :: txs.erase t) := List.perm_cons_erase hmem
  rw [position_perm_invariant acct sym hperm, position_eq_sum,
    position_eq_sum]
  simp [List.filter_cons, hm]

/-- C8: when editing an existing sell transaction, the available quantity
equals the position over the full transaction set plus the edited sell's
own quantity, which is exactly the position over the set with that
transaction removed (the edit is validated as retraction-plus-reinsertion);
the new requested quantity passes validation iff it is at most this
adjusted value. -/
theorem edit_sell_validates_against_retracted (txs : List Transaction)
    (t : Transaction) (acct : Nat) (sym : String) (q : Rat)
    (hmem : t ∈ txs) (hside : t.side = Side.sell)
    (hm : txMatches acct sym t = true) :
    editAvailablePosition txs t acct sym = position acct sym txs + t.quantity
      ∧ editAvailablePosition txs t acct sym
        = position acct sym (txs.erase t)
      ∧ (editSellSubmitProceeds q (editAvailablePosition txs t acct sym)
            = true
          ↔ q ≤ position acct sym (txs.erase t)) := by
  have h1 : editAvailablePosition txs t acct sym
      = position acct sym txs + t.quantity := by
    unfold editAvailablePosition
    rw [if_pos (by simp [hside])]
  have h2 : editAvailablePosition txs t acct sym
      = position acct sym (txs.erase t) := by
    rw [h1, position_erase_of_matches acct sym hmem hm]
    simp [signedQty, hside]
  refine ⟨h1, h2, ?_⟩
  rw [h2]
  unfold editSellSubmitProceeds
  by_cases hq : q > position acct sym (txs.erase t)
  · rw [if_pos hq]
    exact iff_of_false (fun hc => Bool.noConfusion hc) (not_le.mpr hq)
  · rw [if_neg hq]
    exact iff_of_true rfl (not_lt.mp hq)

/-- C8 witness: editing the sell of the spec's scenario, the available
quantity is the position with that sell retracted (15), and selling all 15
passes validation. -/
theorem edit_sell_validates_against_retracted_witness :
    (⟨3, 1, "SYM", Side.sell, 3, 7, 3⟩ : Transaction) ∈ demoTxs
      ∧ (Side.sell = Side.sell)
      ∧ txMatches 1 "SYM" ⟨3, 1, "SYM", Side.sell, 3, 7, 3⟩ = true
      ∧ editAvailablePosition demoTxs ⟨3, 1, "SYM", Side.sell, 3, 7, 3⟩ 1 "SYM"
          = position 1 "SYM" (demoTxs.erase ⟨3, 1, "SYM", Side.sell, 3, 7, 3⟩)
      ∧ (editSellSubmitProceeds 15
            (editAvailablePosition demoTxs ⟨3, 1, "SYM", Side.sell, 3, 7, 3⟩ 1
              "SYM") = true
          ↔ (15 : Rat)
              ≤ position 1 "SYM"
                  (demoTxs.erase ⟨3, 1, "SYM", Side.sell, 3, 7, 3⟩)) := by
  have h := edit_sell_validates_against_retracted demoTxs
    ⟨3, 1, "SYM", Side.sell, 3, 7, 3⟩ 1 "SYM" 15 (by decide) rfl (by decide)
  exact ⟨by decide, rfl, by decide, h.2.1, h.2.2⟩

end StockDB
